import Mathlib

/-
Shallow embedding of the availability / booking core of the medibook
backend (JavaScript, Prisma store), together with proofs about it.

Conventions of the embedding:
* Timestamps are integers (milliseconds since the epoch), exactly the
  numeric value JavaScript Date objects compare and subtract with.
  Comparisons between Date objects in the source are numeric comparisons
  of these values.
* A calendar date (the result of `toISOString().split("T")[0]` or of
  `setHours(0,0,0,0)` in a UTC environment) is the floor-division day
  index `t / 86400000`.
* Clock-time strings "HH:MM" (schedule rows, exceptions) are stored as
  minutes- or milliseconds-of-day integers; lexicographic comparison of
  zero-padded "HH:MM" strings coincides with numeric comparison of
  minutes-of-day, and `new Date(dateString + "T" + hhmm)` is
  `dayIndex * 86400000 + msOfDay`.
* Prisma queries (`findFirst`, `findMany`, `create`, `update`) become
  `List.find?`, `List.filter`, list append and pointwise map on the
  in-memory store; `throw`/reject becomes `Except.error`.
-/

namespace MediBook

/-- One half-open-by-use time range `{start, end}` as manipulated by
`schedule.service.js` (`end` is spelled `stop` because `end` is a Lean
keyword). -/
structure TimeRange where
  start : ℤ
  stop : ℤ
deriving DecidableEq, Repr

/-- Body of the `for (const range of availableRanges)` loop of
`_removeTimeRange` in `schedule.service.js` (lines 740-776): the list of
ranges pushed to `result` for a single input `range`, given the removal
bounds.  The five guarded cases are translated verbatim, in order; the
final fall-through (outside every case) pushes nothing. -/
def removeTimeRangeOne (range : TimeRange) (removeStart removeEnd : ℤ) : List TimeRange :=
  if range.stop ≤ removeStart ∨ range.start ≥ removeEnd then [range]
  else if removeStart ≤ range.start ∧ removeEnd ≥ range.stop then []
  else if removeStart > range.start ∧ removeEnd < range.stop then
    [⟨range.start, removeStart⟩, ⟨removeEnd, range.stop⟩]
  else if removeStart ≤ range.start ∧ removeEnd > range.start then
    [⟨removeEnd, range.stop⟩]
  else if removeStart < range.stop ∧ removeEnd ≥ range.stop then
    [⟨range.start, removeStart⟩]
  else []

/-- `_removeTimeRange(availableRanges, removeStart, removeEnd)` of
`schedule.service.js`: the loop pushes, for each input range in order,
the ranges produced by the five-case analysis, so the whole function is
a concat-map of `removeTimeRangeOne`. -/
def _removeTimeRange (availableRanges : List TimeRange) (removeStart removeEnd : ℤ) :
    List TimeRange :=
  availableRanges.flatMap (fun range => removeTimeRangeOne range removeStart removeEnd)

/-- Set of instants covered by a list of ranges, each read as the
half-open integer interval `[start, stop)`. -/
def rangesUnion : List TimeRange → Set ℤ
  | [] => ∅
  | r :: t => Set.Ico r.start r.stop ∪ rangesUnion t

theorem rangesUnion_append (l₁ l₂ : List TimeRange) :
    rangesUnion (l₁ ++ l₂) = rangesUnion l₁ ∪ rangesUnion l₂ := by
  induction l₁ with
  | nil => simp [rangesUnion]
  | cons r t ih => simp [rangesUnion, ih, Set.union_assoc]

theorem rangesUnion_flatMap (l : List TimeRange) (f : TimeRange → List TimeRange) :
    rangesUnion (l.flatMap f) = ⋃ r ∈ l, rangesUnion (f r) := by
  induction l with
  | nil => simp [rangesUnion]
  | cons r t ih => simp [List.flatMap_cons, rangesUnion_append, ih]

/-- Every range emitted for a single input range is a nonempty subrange
of that input. -/
theorem removeTimeRangeOne_mem_bounds (r : TimeRange) (rs re : ℤ)
    (hr : r.start < r.stop) :
    ∀ o ∈ removeTimeRangeOne r rs re,
      r.start ≤ o.start ∧ o.stop ≤ r.stop ∧ o.start < o.stop := by
  intro o ho
  unfold removeTimeRangeOne at ho
  split_ifs at ho <;>
    (simp only [List.mem_singleton, List.mem_cons, List.not_mem_nil, or_false] at ho) <;>
    (try rcases ho with ho | ho) <;>
    (try subst ho) <;> (try dsimp only) <;> omega

/-- The (at most two) ranges emitted for a single input range appear in
increasing order, separated by the removed interval. -/
theorem removeTimeRangeOne_pairwise (r : TimeRange) (rs re : ℤ) (hX : rs < re) :
    (removeTimeRangeOne r rs re).Pairwise (fun a b => a.stop ≤ b.start) := by
  unfold removeTimeRangeOne
  split_ifs <;> simp_all <;> omega

/-- The instants covered by the output for a single range are exactly
the input interval minus the removed interval. -/
theorem rangesUnion_removeTimeRangeOne (r : TimeRange) (rs re : ℤ) :
    rangesUnion (removeTimeRangeOne r rs re) =
      Set.Ico r.start r.stop \ Set.Ico rs re := by
  unfold removeTimeRangeOne
  split_ifs <;>
    · ext x
      simp [rangesUnion]
      omega

theorem pairwise_flatMap {α : Type} {R : α → α → Prop} (f : α → List α) (l : List α)
    (h1 : ∀ a ∈ l, (f a).Pairwise R)
    (h2 : l.Pairwise (fun a b => ∀ x ∈ f a, ∀ y ∈ f b, R x y)) :
    (l.flatMap f).Pairwise R := by
  induction l with
  | nil => simp
  | cons a t ih =>
    rw [List.flatMap_cons, List.pairwise_append]
    refine ⟨h1 a (by simp), ih (fun b hb => h1 b (by simp [hb])) (h2.sublist (by simp)), ?_⟩
    intro x hx y hy
    rw [List.mem_flatMap] at hy
    obtain ⟨b, hb, hyb⟩ := hy
    exact (List.pairwise_cons.mp h2).1 b hb x hx y hyb

/-- C3. For every list `R` of pairwise-disjoint, sorted, nonempty ranges
and every removal range `[rs, re)` with `rs < re`,
`_removeTimeRange R rs re` is again a pairwise-disjoint, sorted list of
nonempty ranges, and the instants it covers, together with the part of
`R` that lies inside the removal range, are exactly the instants covered
by `R`: no time is lost or invented.  The five overlap cases (no
overlap, full containment, interior split, left truncation, right
truncation) are the five guarded branches of `removeTimeRangeOne`. -/
theorem C3_removeTimeRange_subtraction_correct (l : List TimeRange) (rs re : ℤ)
    (hval : ∀ r ∈ l, r.start < r.stop)
    (hsort : l.Pairwise fun a b => a.stop ≤ b.start)
    (hX : rs < re) :
    (∀ o ∈ _removeTimeRange l rs re, o.start < o.stop) ∧
    (_removeTimeRange l rs re).Pairwise (fun a b => a.stop ≤ b.start) ∧
    rangesUnion (_removeTimeRange l rs re) ∪ (rangesUnion l ∩ Set.Ico rs re) =
      rangesUnion l := by
  refine ⟨?_, ?_, ?_⟩
  · intro o ho
    rw [_removeTimeRange, List.mem_flatMap] at ho
    obtain ⟨r, hr, hor⟩ := ho
    exact (removeTimeRangeOne_mem_bounds r rs re (hval r hr) o hor).2.2
  · refine pairwise_flatMap _ _ (fun r hr => removeTimeRangeOne_pairwise r rs re hX) ?_
    refine hsort.imp_of_mem ?_
    intro a b ha hb hab x hx y hy
    have hxa := removeTimeRangeOne_mem_bounds a rs re (hval a ha) x hx
    have hyb := removeTimeRangeOne_mem_bounds b rs re (hval b hb) y hy
    omega
  · induction l with
    | nil => simp [_removeTimeRange, rangesUnion]
    | cons r t ih =>
      have hvalt : ∀ x ∈ t, x.start < x.stop := fun x hx => hval x (by simp [hx])
      have ihu := ih hvalt (hsort.sublist (by simp))
      rw [_removeTimeRange, List.flatMap_cons, rangesUnion_append]
      rw [_removeTimeRange] at ihu
      show (rangesUnion (removeTimeRangeOne r rs re) ∪ rangesUnion (t.flatMap _)) ∪
        (rangesUnion (r :: t) ∩ Set.Ico rs re) = rangesUnion (r :: t)
      rw [rangesUnion_removeTimeRangeOne]
      ext x
      have h1 := Set.ext_iff.mp ihu x
      simp only [rangesUnion, Set.mem_union, Set.mem_inter_iff, Set.mem_diff,
        Set.mem_Ico] at h1 ⊢
      tauto

/-- Witness for C3 at a concrete input: one range `[0, 10)` with the
removal range `[3, 5)` satisfies all the hypotheses, and the theorem
applies. -/
theorem C3_removeTimeRange_subtraction_correct_witness :
    (∀ r ∈ [TimeRange.mk 0 10], r.start < r.stop) ∧
    ([TimeRange.mk 0 10].Pairwise fun a b => a.stop ≤ b.start) ∧
    (3 : ℤ) < 5 ∧
    ((∀ o ∈ _removeTimeRange [TimeRange.mk 0 10] 3 5, o.start < o.stop) ∧
     (_removeTimeRange [TimeRange.mk 0 10] 3 5).Pairwise (fun a b => a.stop ≤ b.start) ∧
     rangesUnion (_removeTimeRange [TimeRange.mk 0 10] 3 5) ∪
        (rangesUnion [TimeRange.mk 0 10] ∩ Set.Ico 3 5) =
       rangesUnion [TimeRange.mk 0 10]) :=
  ⟨by decide, by decide, by decide,
    C3_removeTimeRange_subtraction_correct [TimeRange.mk 0 10] 3 5
      (by decide) (by decide) (by decide)⟩

/-- Strict version of the separation property: removal bounds with
`rs < re` leave a gap between the two pieces of a split. -/
theorem removeTimeRangeOne_pairwise_strict (r : TimeRange) (rs re : ℤ) (hX : rs < re) :
    (removeTimeRangeOne r rs re).Pairwise (fun a b => a.stop < b.start) := by
  unfold removeTimeRangeOne
  split_ifs <;> simp_all <;> omega

/-- Removing a range from a list subtracts the removed interval from the
covered set. -/
theorem rangesUnion_removeTimeRange (l : List TimeRange) (rs re : ℤ) :
    rangesUnion (_removeTimeRange l rs re) = rangesUnion l \ Set.Ico rs re := by
  induction l with
  | nil => simp [_removeTimeRange, rangesUnion]
  | cons r t ih =>
    rw [_removeTimeRange, List.flatMap_cons, rangesUnion_append]
    rw [_removeTimeRange] at ih
    rw [ih, rangesUnion_removeTimeRangeOne]
    show _ = rangesUnion (r :: t) \ _
    rw [rangesUnion]
    ext x
    simp only [Set.mem_union, Set.mem_diff, Set.mem_Ico]
    tauto

theorem mem_rangesUnion {x : ℤ} {l : List TimeRange} :
    x ∈ rangesUnion l ↔ ∃ r ∈ l, r.start ≤ x ∧ x < r.stop := by
  induction l with
  | nil => simp [rangesUnion]
  | cons r t ih => simp [rangesUnion, ih, Set.mem_Ico]

/-- A sorted, strictly separated list of nonempty integer intervals is
determined by the set it covers. -/
theorem sorted_ranges_unique (l₁ : List TimeRange) :
    ∀ l₂ : List TimeRange,
    (∀ r ∈ l₁, r.start < r.stop) → (∀ r ∈ l₂, r.start < r.stop) →
    l₁.Pairwise (fun a b => a.stop < b.start) →
    l₂.Pairwise (fun a b => a.stop < b.start) →
    rangesUnion l₁ = rangesUnion l₂ → l₁ = l₂ := by
  induction l₁ with
  | nil =>
    intro l₂ _ hv2 _ _ hu
    cases l₂ with
    | nil => rfl
    | cons r2 t2 =>
      exfalso
      have : r2.start ∈ rangesUnion (r2 :: t2) := by
        rw [mem_rangesUnion]
        exact ⟨r2, by simp, le_refl _, hv2 r2 (by simp)⟩
      rw [← hu] at this
      simp [rangesUnion] at this
  | cons r1 t1 ih =>
    intro l₂ hv1 hv2 hs1 hs2 hu
    cases l₂ with
    | nil =>
      exfalso
      have : r1.start ∈ rangesUnion (r1 :: t1) := by
        rw [mem_rangesUnion]
        exact ⟨r1, by simp, le_refl _, hv1 r1 (by simp)⟩
      rw [hu] at this
      simp [rangesUnion] at this
    | cons r2 t2 =>
      have hmin1 : ∀ rr ∈ t1, r1.stop < rr.start := (List.pairwise_cons.mp hs1).1
      have hmin2 : ∀ rr ∈ t2, r2.stop < rr.start := (List.pairwise_cons.mp hs2).1
      have hstart : r1.start = r2.start := by
        have m1 : r1.start ∈ rangesUnion (r2 :: t2) := by
          rw [← hu, mem_rangesUnion]
          exact ⟨r1, by simp, le_refl _, hv1 r1 (by simp)⟩
        have m2 : r2.start ∈ rangesUnion (r1 :: t1) := by
          rw [hu, mem_rangesUnion]
          exact ⟨r2, by simp, le_refl _, hv2 r2 (by simp)⟩
        rw [mem_rangesUnion] at m1 m2
        obtain ⟨a, ha, ha1, ha2⟩ := m1
        obtain ⟨b, hb, hb1, hb2⟩ := m2
        rcases List.mem_cons.mp ha with rfl | ha
        · rcases List.mem_cons.mp hb with rfl | hb
          · omega
          · have := hmin1 b hb
            have := hv1 r1 (by simp)
            omega
        · have := hmin2 a ha
          have := hv2 r2 (by simp)
          rcases List.mem_cons.mp hb with rfl | hb
          · omega
          · have := hmin1 b hb
            have := hv1 r1 (by simp)
            omega
      have hnotin1 : r1.stop ∉ rangesUnion (r1 :: t1) := by
        rw [mem_rangesUnion]
        rintro ⟨a, ha, ha1, ha2⟩
        rcases List.mem_cons.mp ha with rfl | ha
        · omega
        · have := hmin1 a ha
          omega
      have hnotin2 : r2.stop ∉ rangesUnion (r2 :: t2) := by
        rw [mem_rangesUnion]
        rintro ⟨a, ha, ha1, ha2⟩
        rcases List.mem_cons.mp ha with rfl | ha
        · omega
        · have := hmin2 a ha
          omega
      have hstop : r1.stop = r2.stop := by
        by_contra hne
        rcases lt_or_gt_of_ne hne with hlt | hgt
        · apply hnotin1
          rw [hu, mem_rangesUnion]
          refine ⟨r2, by simp, ?_, hlt⟩
          have := hv1 r1 (by simp)
          omega
        · apply hnotin2
          rw [← hu, mem_rangesUnion]
          refine ⟨r1, by simp, ?_, hgt⟩
          have := hv2 r2 (by simp)
          omega
      have htail : rangesUnion t1 = rangesUnion t2 := by
        ext x
        constructor
        · intro hx
          obtain ⟨a, ha, ha1, ha2⟩ := mem_rangesUnion.mp hx
          have hgap := hmin1 a ha
          have hx1 : x ∈ rangesUnion (r2 :: t2) := by
            rw [← hu, mem_rangesUnion]; exact ⟨a, by simp [ha], ha1, ha2⟩
          rw [rangesUnion, Set.mem_union, Set.mem_Ico] at hx1
          rcases hx1 with hx1 | hx1
          · omega
          · exact hx1
        · intro hx
          obtain ⟨a, ha, ha1, ha2⟩ := mem_rangesUnion.mp hx
          have hgap := hmin2 a ha
          have hx1 : x ∈ rangesUnion (r1 :: t1) := by
            rw [hu, mem_rangesUnion]; exact ⟨a, by simp [ha], ha1, ha2⟩
          rw [rangesUnion, Set.mem_union, Set.mem_Ico] at hx1
          rcases hx1 with hx1 | hx1
          · omega
          · exact hx1
      have hr12 : r1 = r2 := by
        cases r1; cases r2
        simp only at hstart hstop
        simp [hstart, hstop]
      rw [hr12, ih t2 (fun r hr => hv1 r (by simp [hr])) (fun r hr => hv2 r (by simp [hr]))
        (List.pairwise_cons.mp hs1).2 (List.pairwise_cons.mp hs2).2 htail]

/-- Double removal from a single valid range, in either order, yields a
valid, strictly separated sorted list. -/
theorem remove2_valid_pairwise (r : TimeRange) (xs xe ys ye : ℤ)
    (hr : r.start < r.stop) (hx : xs < xe) (hy : ys < ye) :
    (∀ o ∈ _removeTimeRange (removeTimeRangeOne r xs xe) ys ye, o.start < o.stop) ∧
    (_removeTimeRange (removeTimeRangeOne r xs xe) ys ye).Pairwise
      (fun a b => a.stop < b.start) := by
  constructor
  · intro o ho
    rw [_removeTimeRange, List.mem_flatMap] at ho
    obtain ⟨p, hp, hop⟩ := ho
    have hpv := removeTimeRangeOne_mem_bounds r xs xe hr p hp
    exact (removeTimeRangeOne_mem_bounds p ys ye hpv.2.2 o hop).2.2
  · refine pairwise_flatMap _ _ (fun p hp => removeTimeRangeOne_pairwise_strict p ys ye hy) ?_
    refine (removeTimeRangeOne_pairwise_strict r xs xe hx).imp_of_mem ?_
    intro a b ha hb hab x hx1 y hy1
    have hav := removeTimeRangeOne_mem_bounds r xs xe hr a ha
    have hbv := removeTimeRangeOne_mem_bounds r xs xe hr b hb
    have hxa := removeTimeRangeOne_mem_bounds a ys ye hav.2.2 x hx1
    have hyb := removeTimeRangeOne_mem_bounds b ys ye hbv.2.2 y hy1
    omega

/-- Removing two ranges from a single valid range commutes: both orders
produce valid strictly separated sorted lists covering the same set, so
they are equal lists. -/
theorem removeOne_comm (r : TimeRange) (xs xe ys ye : ℤ)
    (hr : r.start < r.stop) (hx : xs < xe) (hy : ys < ye) :
    _removeTimeRange (removeTimeRangeOne r xs xe) ys ye =
      _removeTimeRange (removeTimeRangeOne r ys ye) xs xe := by
  have h1 := remove2_valid_pairwise r xs xe ys ye hr hx hy
  have h2 := remove2_valid_pairwise r ys ye xs xe hr hy hx
  refine sorted_ranges_unique _ _ h1.1 h2.1 h1.2 h2.2 ?_
  rw [rangesUnion_removeTimeRange, rangesUnion_removeTimeRange,
    rangesUnion_removeTimeRangeOne, rangesUnion_removeTimeRangeOne]
  rw [Set.diff_diff, Set.diff_diff, Set.union_comm]

theorem removeTimeRange_append (l₁ l₂ : List TimeRange) (rs re : ℤ) :
    _removeTimeRange (l₁ ++ l₂) rs re =
      _removeTimeRange l₁ rs re ++ _removeTimeRange l₂ rs re := by
  rw [_removeTimeRange, List.flatMap_append]; rfl

theorem removeTimeRange_comm (l : List TimeRange) (xs xe ys ye : ℤ)
    (hval : ∀ r ∈ l, r.start < r.stop) (hx : xs < xe) (hy : ys < ye) :
    _removeTimeRange (_removeTimeRange l xs xe) ys ye =
      _removeTimeRange (_removeTimeRange l ys ye) xs xe := by
  induction l with
  | nil => rfl
  | cons r t ih =>
    have hr := hval r (by simp)
    have ht := ih (fun x hx1 => hval x (by simp [hx1]))
    have hcons : ∀ rs re, _removeTimeRange (r :: t) rs re =
        removeTimeRangeOne r rs re ++ _removeTimeRange t rs re := by
      intro rs re
      rw [_removeTimeRange, List.flatMap_cons]; rfl
    rw [hcons, hcons, removeTimeRange_append, removeTimeRange_append,
      removeOne_comm r xs xe ys ye hr hx hy, ht]

/-- C7. Range subtraction is order-independent: on a pairwise-disjoint,
sorted list of nonempty ranges, removing `[xs, xe)` and then `[ys, ye)`
(both nonempty) gives the same list as removing them in the other
order; hence subtracting a day's partial exceptions and appointments in
either order yields the same free ranges. -/
theorem C7_removeTimeRange_order_independent (l : List TimeRange) (xs xe ys ye : ℤ)
    (hval : ∀ r ∈ l, r.start < r.stop)
    (hsort : l.Pairwise fun a b => a.stop ≤ b.start)
    (hx : xs < xe) (hy : ys < ye) :
    _removeTimeRange (_removeTimeRange l xs xe) ys ye =
      _removeTimeRange (_removeTimeRange l ys ye) xs xe :=
  removeTimeRange_comm l xs xe ys ye hval hx hy

/-- Witness for C7 at a concrete input: one range `[0, 100)` with the
removal ranges `[10, 20)` and `[15, 40)` satisfies the hypotheses and
the theorem applies. -/
theorem C7_removeTimeRange_order_independent_witness :
    (∀ r ∈ [TimeRange.mk 0 100], r.start < r.stop) ∧
    ([TimeRange.mk 0 100].Pairwise fun a b => a.stop ≤ b.start) ∧
    (10 : ℤ) < 20 ∧ (15 : ℤ) < 40 ∧
    _removeTimeRange (_removeTimeRange [TimeRange.mk 0 100] 10 20) 15 40 =
      _removeTimeRange (_removeTimeRange [TimeRange.mk 0 100] 15 40) 10 20 :=
  ⟨by decide, by decide, by decide, by decide,
    C7_removeTimeRange_order_independent [TimeRange.mk 0 100] 10 20 15 40
      (by decide) (by decide) (by decide) (by decide)⟩

/-- A generated bookable slot `{startTime, endTime}` as produced by
`_generateTimeSlots` in `schedule.service.js`. -/
structure Slot where
  startTime : ℤ
  endTime : ℤ
deriving DecidableEq, Repr

/-- The `while (current <= end)` loop of `_generateTimeSlots`
(`schedule.service.js` lines 782-805), after the end bound has already
been lowered by the duration: pushes `{current, current + durationMs}`
and advances `current` by the hard-coded 15-minute increment
(`current.setMinutes(current.getMinutes() + 15)`, i.e. 900000 ms). -/
def slotLoop (current endAdj durationMs : ℤ) : List Slot :=
  if current ≤ endAdj then
    ⟨current, current + durationMs⟩ :: slotLoop (current + 900000) endAdj durationMs
  else []
termination_by (endAdj + 1 - current).toNat
decreasing_by simp_wf; omega

/-- `_generateTimeSlots(startTime, endTime, duration)` of
`schedule.service.js`: `durationMs = duration * 60 * 1000`, the end
bound is first lowered by `durationMs`
(`end.setTime(end.getTime() - durationMs)`), then the loop runs. -/
def _generateTimeSlots (startTime endTime duration : ℤ) : List Slot :=
  slotLoop startTime (endTime - duration * 60 * 1000) (duration * 60 * 1000)

theorem slotLoop_length (current endAdj durationMs : ℤ) :
    (slotLoop current endAdj durationMs).length =
      if current ≤ endAdj then ((endAdj - current) / 900000).toNat + 1 else 0 := by
  rw [slotLoop]
  split_ifs with h
  · simp only [List.length_cons]
    rw [slotLoop_length]
    split_ifs with h2 <;> omega
  · rfl
termination_by (endAdj + 1 - current).toNat
decreasing_by simp_wf; omega

theorem slotLoop_mem (current endAdj durationMs : ℤ) :
    ∀ s ∈ slotLoop current endAdj durationMs,
      current ≤ s.startTime ∧ s.startTime ≤ endAdj ∧
        s.endTime = s.startTime + durationMs := by
  intro s hs
  rw [slotLoop] at hs
  split_ifs at hs with h
  · rcases List.mem_cons.mp hs with hs | hs
    · subst hs; dsimp only; omega
    · have := slotLoop_mem (current + 900000) endAdj durationMs s hs
      omega
  · simp at hs
termination_by (endAdj + 1 - current).toNat
decreasing_by simp_wf; omega

/-- C6. Over a range `[startTime, endTime)` of length `L` ms, slot
generation with duration `d` minutes and the source's hard-coded step of
15 minutes (900000 ms) produces exactly `(L - d*60000) / 900000 + 1`
slots (floor division) when `L ≥ d*60000` and none when `L < d*60000`;
every slot is exactly `d` minutes long and lies entirely inside the
range, so no partial trailing slot is ever emitted. -/
theorem C6_generateTimeSlots_count_and_bounds (startTime endTime duration : ℤ) :
    (duration * 60 * 1000 ≤ endTime - startTime →
      (_generateTimeSlots startTime endTime duration).length =
        ((endTime - startTime - duration * 60 * 1000) / 900000).toNat + 1) ∧
    (endTime - startTime < duration * 60 * 1000 →
      _generateTimeSlots startTime endTime duration = []) ∧
    (∀ s ∈ _generateTimeSlots startTime endTime duration,
      startTime ≤ s.startTime ∧ s.endTime = s.startTime + duration * 60 * 1000 ∧
        s.endTime ≤ endTime) := by
  refine ⟨?_, ?_, ?_⟩
  · intro h
    rw [_generateTimeSlots, slotLoop_length]
    split_ifs with h2 <;> omega
  · intro h
    rw [_generateTimeSlots, slotLoop]
    split_ifs with h2
    · omega
    · rfl
  · intro s hs
    have := slotLoop_mem startTime (endTime - duration * 60 * 1000)
      (duration * 60 * 1000) s hs
    omega

/-- Witness for C6 at a concrete input: a 09:00-10:10 range (relative
milliseconds 0 and 4200000) with 30-minute slots yields
`(4200000 - 1800000) / 900000 + 1 = 3` slots, none crossing the end. -/
theorem C6_generateTimeSlots_count_and_bounds_witness :
    ((30 : ℤ) * 60 * 1000 ≤ 4200000 - 0 →
      (_generateTimeSlots 0 4200000 30).length =
        (((4200000 : ℤ) - 0 - 30 * 60 * 1000) / 900000).toNat + 1) ∧
    ((4200000 : ℤ) - 0 < 30 * 60 * 1000 →
      _generateTimeSlots 0 4200000 30 = []) ∧
    (∀ s ∈ _generateTimeSlots 0 4200000 30,
      (0 : ℤ) ≤ s.startTime ∧ s.endTime = s.startTime + 30 * 60 * 1000 ∧
        s.endTime ≤ 4200000) :=
  C6_generateTimeSlots_count_and_bounds 0 4200000 30

/-- Appointment status values used by the services (the Prisma enum
`AppointmentStatus` plus `NO_SHOW`, which the schedule service filters
against). -/
inductive AppointmentStatus where
  | PENDING
  | CONFIRMED
  | CANCELLED
  | COMPLETED
  | NO_SHOW
deriving DecidableEq, Repr

/-- The literal string stored for a status: Prisma persists enum values
by their (uppercase) names.  `schedule.controller.js` compares these
strings against lowercase literals. -/
def statusString : AppointmentStatus → String
  | .PENDING => "PENDING"
  | .CONFIRMED => "CONFIRMED"
  | .CANCELLED => "CANCELLED"
  | .COMPLETED => "COMPLETED"
  | .NO_SHOW => "NO_SHOW"

/-- Milliseconds per calendar day. -/
def dayMs : ℤ := 86400000

/-- Day index of a timestamp: the calendar date produced by
`toISOString().split("T")[0]` or `setHours(0,0,0,0)` in a UTC
environment (floor division, as JavaScript dates behave for the UTC
calendar). -/
def dayOf (t : ℤ) : ℤ := t / dayMs

/-- JavaScript `getDay()` (0 = Sunday): the epoch day 0 was a Thursday
(4). -/
def jsDayOfWeek (t : ℤ) : ℤ := (dayOf t + 4) % 7

/-- Minutes-of-day of a timestamp, the numeric content of the "HH:MM"
prefix of `toTimeString().substring(0, 5)`; comparing zero-padded
"HH:MM" strings lexicographically is comparing these numbers. -/
def minuteOfDay (t : ℤ) : ℤ := t % dayMs / 60000

/-- Appointment row as used by `appointment.service.js` (ids are
numbers here; Prisma uses uuid strings, only equality matters). -/
structure Appointment where
  id : ℕ
  doctorId : ℕ
  patientId : ℕ
  serviceId : ℕ
  startTime : ℤ
  endTime : ℤ
  status : AppointmentStatus
  cancellationReason : String
deriving DecidableEq, Repr

/-- Row of the per-date `schedule` model queried by
`createAppointment` (`prisma.schedule.findFirst({doctorId, date})`):
`date` is a day index, `startTime`/`endTime` are the "HH:MM" clock
strings stored as milliseconds-of-day, so that
`new Date(date + "T" + startTime)` is `date * dayMs + startTime`. -/
structure ScheduleRow where
  doctorId : ℕ
  date : ℤ
  startTime : ℤ
  endTime : ℤ
deriving DecidableEq, Repr

/-- Row of the weekly `doctorSchedule` model queried by
`isTimeSlotAvailable`: clock times as minutes-of-day, effective window
as absolute timestamps (`null` = open side). -/
structure DoctorSchedule where
  doctorId : ℕ
  dayOfWeek : ℤ
  startMin : ℤ
  endMin : ℤ
  isAvailable : Bool
  effectiveDate : Option ℤ
  expiryDate : Option ℤ
deriving DecidableEq, Repr

/-- Row of the `scheduleException` model: `date` is a day index;
`startMin`/`endMin` are minutes-of-day and are meaningful only when
`isFullDay = false` (the source stores `null` for full-day rows and
never reads them). -/
structure ScheduleExceptionRow where
  doctorId : ℕ
  date : ℤ
  isFullDay : Bool
  startMin : ℤ
  endMin : ℤ
deriving DecidableEq, Repr

/-- The shared Prisma store as seen by the appointment and schedule
services. -/
structure Store where
  doctors : List ℕ
  services : List ℕ
  patients : List ℕ
  appointments : List Appointment
  schedules : List ScheduleRow
  doctorSchedules : List DoctorSchedule
  exceptions : List ScheduleExceptionRow
deriving DecidableEq, Repr

/-- The distinct rejection reasons of `createAppointment`
(`appointment.service.js`), in source order. -/
inductive BookError where
  | missingFields
  | invalidInterval
  | pastTime
  | doctorNotFound
  | serviceNotFound
  | patientNotFound
  | conflict
  | notScheduled
  | outsideHours
deriving DecidableEq, Repr

/-- Input of `createAppointment`; `status` defaults to `PENDING` at the
call sites. -/
structure BookRequest where
  patientId : ℕ
  doctorId : ℕ
  serviceId : ℕ
  startTime : ℤ
  endTime : ℤ
  status : AppointmentStatus
deriving DecidableEq, Repr

/-- The three-clause `OR` of the conflicting-appointment Prisma query in
`createAppointment` and `updateAppointment` (lines 87-100 and 318-331
of `appointment.service.js`), verbatim. -/
def overlapsExisting (a : Appointment) (s e : ℤ) : Bool :=
  decide ((a.startTime ≤ s ∧ a.endTime > s) ∨
    (a.startTime < e ∧ a.endTime ≥ e) ∨
    (a.startTime ≥ s ∧ a.endTime ≤ e))

/-- The `prisma.appointment.findFirst` conflict query shared by
`createAppointment` (no exclusion) and `updateAppointment` (which adds
`id: { not: id }`): first appointment of the doctor, not CANCELLED,
matching the three-clause overlap `OR`. -/
def findConflicting (appts : List Appointment) (doctorId : ℕ) (s e : ℤ)
    (excludeId : Option ℕ) : Option Appointment :=
  appts.find? (fun a =>
    decide (a.doctorId = doctorId) &&
    (match excludeId with
     | none => true
     | some i => decide (a.id ≠ i)) &&
    decide (a.status ≠ .CANCELLED) &&
    overlapsExisting a s e)

/-- The validation pipeline of `createAppointment`
(`appointment.service.js` lines 26-130), in source order: required
fields (JavaScript falsiness modelled as the 0 value), interval
validity, past check against the observed clock, doctor / service /
patient existence, the conflicting-appointment query, then the per-date
`schedule` lookup and the working-hours bounds.  Returns the first
failure, or `none` when every check passes. -/
def bookChecks (now : ℤ) (st : Store) (req : BookRequest) : Option BookError :=
  if req.patientId = 0 ∨ req.doctorId = 0 ∨ req.serviceId = 0 ∨ req.startTime = 0 then
    some .missingFields
  else if req.startTime ≥ req.endTime then some .invalidInterval
  else if req.startTime < now then some .pastTime
  else if req.doctorId ∉ st.doctors then some .doctorNotFound
  else if req.serviceId ∉ st.services then some .serviceNotFound
  else if req.patientId ∉ st.patients then some .patientNotFound
  else if (findConflicting st.appointments req.doctorId req.startTime req.endTime
      none).isSome then some .conflict
  else
    match st.schedules.find? (fun r =>
        decide (r.doctorId = req.doctorId) && decide (r.date = dayOf req.startTime)) with
    | none => some .notScheduled
    | some row =>
      if req.startTime < row.date * dayMs + row.startTime ∨
          req.endTime > row.date * dayMs + row.endTime then some .outsideHours
      else none

/-- The `prisma.appointment.create` call of `createAppointment`: append
the new row (with the requested status) to the store. -/
def bookInsert (st : Store) (req : BookRequest) (newId : ℕ) : Store :=
  { st with appointments := st.appointments ++
      [{ id := newId, doctorId := req.doctorId, patientId := req.patientId,
         serviceId := req.serviceId, startTime := req.startTime,
         endTime := req.endTime, status := req.status, cancellationReason := "" }] }

/-- `createAppointment` of `appointment.service.js`: run the checks and,
only if all pass, insert.  The source performs the read checks and the
insert as separate awaited store operations with no surrounding
transaction; the split into `bookChecks` and `bookInsert` records
exactly that two-phase structure. -/
def createAppointment (now : ℤ) (st : Store) (req : BookRequest) (newId : ℕ) :
    Except BookError Store :=
  match bookChecks now st req with
  | some e => .error e
  | none => .ok (bookInsert st req newId)

/-- Effective-window clause of the `doctorSchedule` queries:
`effectiveDate` is null or `≤` the start, `expiryDate` is null or `≥`
the end. -/
def effectiveOk (r : DoctorSchedule) (s e : ℤ) : Bool :=
  (match r.effectiveDate with
   | none => true
   | some v => decide (v ≤ s)) &&
  (match r.expiryDate with
   | none => true
   | some v => decide (v ≥ e))

/-- `isTimeSlotAvailable(doctorId, startTime, endTime)` of
`schedule.service.js` (lines 413-505): find a covering weekly schedule
row (day of week, "HH:MM" bounds at minute precision, effective window,
`isAvailable`); then reject on a full-day exception for the start date,
then on any overlapping partial exception, then on any overlapping
appointment whose status is not in `[CANCELLED, NO_SHOW]`. -/
def isTimeSlotAvailable (st : Store) (doctorId : ℕ) (startTime endTime : ℤ) : Bool :=
  match st.doctorSchedules.find? (fun r =>
      decide (r.doctorId = doctorId) &&
      decide (r.dayOfWeek = jsDayOfWeek startTime) &&
      decide (r.startMin ≤ minuteOfDay startTime) &&
      decide (r.endMin ≥ minuteOfDay endTime) &&
      effectiveOk r startTime endTime && r.isAvailable) with
  | none => false
  | some _ =>
    let excs := st.exceptions.filter (fun x =>
      decide (x.doctorId = doctorId) && decide (x.date = dayOf startTime))
    if excs.any (fun x => x.isFullDay) then false
    else if excs.any (fun x => !x.isFullDay &&
        !(decide (endTime ≤ dayOf startTime * dayMs + x.startMin * 60000) ||
          decide (startTime ≥ dayOf startTime * dayMs + x.endMin * 60000))) then false
    else if st.appointments.any (fun a =>
        decide (a.doctorId = doctorId) &&
        !(decide (a.status = .CANCELLED) || decide (a.status = .NO_SHOW)) &&
        decide (a.startTime < endTime) && decide (a.endTime > startTime)) then false
    else true

/-- Optional-field update payload of `updateAppointment`
(`appointment.service.js` lines 284-398); `none` means the field was
not provided. -/
structure UpdateData where
  patientId : Option ℕ
  doctorId : Option ℕ
  serviceId : Option ℕ
  startTime : Option ℤ
  endTime : Option ℤ
  status : Option AppointmentStatus
deriving DecidableEq, Repr

/-- Rejection reasons of `updateAppointment`, in source order. -/
inductive UpdateError where
  | notFound
  | invalidInterval
  | conflict
deriving DecidableEq, Repr

/-- The `updateData` write of `updateAppointment` applied to the row
with the matching id: exactly the provided fields are replaced. -/
def updateRow (id : ℕ) (d : UpdateData) (a : Appointment) : Appointment :=
  if a.id = id then
    { a with
      patientId := d.patientId.getD a.patientId
      doctorId := d.doctorId.getD a.doctorId
      serviceId := d.serviceId.getD a.serviceId
      startTime := d.startTime.getD a.startTime
      endTime := d.endTime.getD a.endTime
      status := d.status.getD a.status }
  else a

/-- `updateAppointment(id, appointmentData)` of
`appointment.service.js`: look the appointment up; when both new times
are provided, require start < end; when the doctor or either time
actually changes, re-run the conflicting-appointment query for the
merged target (provided values falling back to the stored ones),
excluding the appointment itself; then write exactly the provided
fields.  No clock, weekly-schedule, per-date-schedule or exception
check appears in the source. -/
def updateAppointment (st : Store) (id : ℕ) (d : UpdateData) :
    Except UpdateError Store :=
  match st.appointments.find? (fun a => decide (a.id = id)) with
  | none => .error .notFound
  | some appointment =>
    if (match d.startTime, d.endTime with
        | some s, some e => decide (s ≥ e)
        | _, _ => false) then .error .invalidInterval
    else
      let changed :=
        (match d.doctorId with
         | some x => decide (x ≠ appointment.doctorId)
         | none => false) ||
        (match d.startTime with
         | some s => decide (s ≠ appointment.startTime)
         | none => false) ||
        (match d.endTime with
         | some e => decide (e ≠ appointment.endTime)
         | none => false)
      if changed && (findConflicting st.appointments (d.doctorId.getD appointment.doctorId)
          (d.startTime.getD appointment.startTime) (d.endTime.getD appointment.endTime)
          (some id)).isSome then .error .conflict
      else
        .ok { st with appointments := st.appointments.map (updateRow id d) }

/-- Rejection reasons of `cancelAppointment`, in source order. -/
inductive CancelError where
  | notFound
  | alreadyCancelled
  | pastAppointment
deriving DecidableEq, Repr

/-- The cancellation write of `cancelAppointment` applied to the row
with the matching id: status becomes CANCELLED and the reason is stored
(the JavaScript `reason || "No reason provided"` default, falsy = empty
string). -/
def cancelRow (id : ℕ) (reason : String) (a : Appointment) : Appointment :=
  if a.id = id then
    { a with
      status := .CANCELLED
      cancellationReason := if reason = "" then "No reason provided" else reason }
  else a

/-- `cancelAppointment(id, reason)` of `appointment.service.js` (lines
406-457): look the appointment up; reject when it is already CANCELLED
or already started before the observed clock; otherwise set status to
CANCELLED and store the reason (the JavaScript
`reason || "No reason provided"` default, falsy = empty string). -/
def cancelAppointment (now : ℤ) (st : Store) (id : ℕ) (reason : String) :
    Except CancelError Store :=
  match st.appointments.find? (fun a => decide (a.id = id)) with
  | none => .error .notFound
  | some appointment =>
    if appointment.status = .CANCELLED then .error .alreadyCancelled
    else if appointment.startTime < now then .error .pastAppointment
    else
      .ok { st with appointments := st.appointments.map (cancelRow id reason) }

/-- Row of the per-date `schedule` model as read by
`schedule.controller.js` `deleteSchedule`, where `startTime`/`endTime`
are used directly as absolute timestamp bounds for the appointment
query. -/
structure CtrlSchedule where
  id : ℕ
  practiceId : ℕ
  doctorId : ℕ
  startTime : ℤ
  endTime : ℤ
deriving DecidableEq, Repr

/-- Appointment fields consulted by the `deleteSchedule` conflict
query. -/
structure CtrlAppointment where
  doctorId : ℕ
  practiceId : ℕ
  startTime : ℤ
  endTime : ℤ
  status : AppointmentStatus
deriving DecidableEq, Repr

/-- Store slice seen by the schedule controller. -/
structure CtrlStore where
  schedules : List CtrlSchedule
  appointments : List CtrlAppointment
deriving DecidableEq, Repr

/-- Outcomes of `deleteSchedule`, in source order. -/
inductive DeleteScheduleError where
  | notFound
  | hasAppointments
deriving DecidableEq, Repr

/-- `deleteSchedule` of `schedule.controller.js` (lines 371-422): find
the schedule row by id and practice; collect appointments of the same
doctor and practice contained in `[schedule.startTime,
schedule.endTime]` whose stored status string is `"scheduled"` or
`"confirmed"` (lowercase, exactly as the source writes the `status: {
in: [...] }` filter); reject when any match, else delete the row. -/
def deleteSchedule (st : CtrlStore) (practiceId scheduleId : ℕ) :
    Except DeleteScheduleError CtrlStore :=
  match st.schedules.find? (fun s =>
      decide (s.id = scheduleId) && decide (s.practiceId = practiceId)) with
  | none => .error .notFound
  | some schedule =>
    let conflicts := st.appointments.filter (fun a =>
      decide (a.doctorId = schedule.doctorId) && decide (a.practiceId = practiceId) &&
      decide (a.startTime ≥ schedule.startTime) && decide (a.endTime ≤ schedule.endTime) &&
      (decide (statusString a.status = "scheduled") ||
       decide (statusString a.status = "confirmed")))
    if conflicts.length > 0 then .error .hasAppointments
    else .ok { st with schedules := st.schedules.filter (fun s => decide (s.id ≠ scheduleId)) }

/-- The conflict query succeeds exactly on a non-CANCELLED appointment
of the doctor whose interval overlaps the request half-open: for valid
intervals, the three-clause `OR` is equivalent to
`a.startTime < e ∧ s < a.endTime`. -/
theorem findConflicting_isSome (appts : List Appointment) (d : ℕ) (s e : ℤ)
    (excl : Option ℕ)
    (hval : ∀ a ∈ appts, a.startTime < a.endTime) (hse : s < e) :
    (findConflicting appts d s e excl).isSome = true ↔
      ∃ a ∈ appts, a.doctorId = d ∧ (∀ i, excl = some i → a.id ≠ i) ∧
        a.status ≠ .CANCELLED ∧ a.startTime < e ∧ s < a.endTime := by
  rw [findConflicting, List.find?_isSome]
  cases excl with
  | none =>
    constructor
    · rintro ⟨a, ha, hpred⟩
      have hv := hval a ha
      simp only [Bool.and_eq_true, Bool.and_true, Bool.true_and, decide_eq_true_eq,
        overlapsExisting] at hpred
      exact ⟨a, ha, hpred.1.1, by simp, hpred.1.2, by omega⟩
    · rintro ⟨a, ha, h1, h2, h3, h4, h5⟩
      have hv := hval a ha
      refine ⟨a, ha, ?_⟩
      simp only [Bool.and_eq_true, Bool.and_true, Bool.true_and, decide_eq_true_eq,
        overlapsExisting]
      exact ⟨⟨h1, h3⟩, by omega⟩
  | some i =>
    constructor
    · rintro ⟨a, ha, hpred⟩
      have hv := hval a ha
      simp only [Bool.and_eq_true, Bool.and_true, Bool.true_and, decide_eq_true_eq,
        overlapsExisting] at hpred
      refine ⟨a, ha, hpred.1.1.1, ?_, hpred.1.2, by omega⟩
      rintro j hj
      cases hj
      exact hpred.1.1.2
    · rintro ⟨a, ha, h1, h2, h3, h4, h5⟩
      have hv := hval a ha
      refine ⟨a, ha, ?_⟩
      simp only [Bool.and_eq_true, Bool.and_true, Bool.true_and, decide_eq_true_eq,
        overlapsExisting]
      exact ⟨⟨⟨h1, h2 i rfl⟩, h3⟩, by omega⟩

/-- C2. When the request is well-formed (fields present, `start < end`,
not in the past, doctor / service / patient exist) and all stored
appointments have valid intervals, `createAppointment` rejects with the
conflict error exactly when some non-CANCELLED appointment of the same
doctor overlaps `[startTime, endTime)` half-open
(`a.startTime < endTime ∧ startTime < a.endTime`): a request starting
exactly at an existing appointment's end (back-to-back) is not a
conflict, while any strict overlap is. -/
theorem C2_createAppointment_conflict_iff_overlap (now : ℤ) (st : Store)
    (req : BookRequest) (newId : ℕ)
    (hp0 : req.patientId ≠ 0) (hd0 : req.doctorId ≠ 0) (hs0 : req.serviceId ≠ 0)
    (ht0 : req.startTime ≠ 0)
    (hiv : req.startTime < req.endTime)
    (hnow : now ≤ req.startTime)
    (hdoc : req.doctorId ∈ st.doctors)
    (hsvc : req.serviceId ∈ st.services)
    (hpat : req.patientId ∈ st.patients)
    (hval : ∀ a ∈ st.appointments, a.startTime < a.endTime) :
    createAppointment now st req newId = .error .conflict ↔
      ∃ a ∈ st.appointments, a.doctorId = req.doctorId ∧ a.status ≠ .CANCELLED ∧
        a.startTime < req.endTime ∧ req.startTime < a.endTime := by
  have bridge : ∀ x, (createAppointment now st req newId = .error x ↔
      bookChecks now st req = some x) := by
    intro x
    unfold createAppointment
    cases bookChecks now st req <;> simp
  have key : createAppointment now st req newId = .error .conflict ↔
      (findConflicting st.appointments req.doctorId req.startTime req.endTime
        none).isSome = true := by
    rw [bridge]
    unfold bookChecks
    rw [if_neg (by push_neg; exact ⟨hp0, hd0, hs0, ht0⟩)]
    rw [if_neg (by omega)]
    rw [if_neg (by omega)]
    rw [if_neg (by simp [hdoc])]
    rw [if_neg (by simp [hsvc])]
    rw [if_neg (by simp [hpat])]
    by_cases hc : (findConflicting st.appointments req.doctorId req.startTime
        req.endTime none).isSome = true
    · rw [if_pos hc]
      simp [hc]
    · rw [if_neg hc]
      cases hfind : st.schedules.find? (fun r =>
          decide (r.doctorId = req.doctorId) && decide (r.date = dayOf req.startTime)) with
      | none => simp [hc]
      | some row =>
        dsimp only
        split_ifs <;> simp [hc]
  rw [key, findConflicting_isSome st.appointments req.doctorId req.startTime
    req.endTime none hval hiv]
  constructor
  · rintro ⟨a, ha, h1, h2, h3, h4⟩
    exact ⟨a, ha, h1, h3, h4⟩
  · rintro ⟨a, ha, h1, h3, h4⟩
    exact ⟨a, ha, h1, by simp, h3, h4⟩

/-- Concrete store for the C2 witness: one CONFIRMED appointment of
doctor 1 over `[1000, 2000)`. -/
abbrev c2Store : Store :=
  { doctors := [1], services := [1], patients := [1],
    appointments := [
      { id := 1, doctorId := 1, patientId := 1, serviceId := 1,
        startTime := 1000, endTime := 2000, status := .CONFIRMED,
        cancellationReason := "" }],
    schedules := [], doctorSchedules := [], exceptions := [] }

/-- Concrete overlapping request for the C2 witness. -/
abbrev c2Req : BookRequest :=
  { patientId := 1, doctorId := 1, serviceId := 1,
    startTime := 1500, endTime := 2500, status := .PENDING }

/-- Witness for C2: at the concrete store and request every hypothesis
holds and the theorem applies. -/
theorem C2_createAppointment_conflict_iff_overlap_witness :
    c2Req.patientId ≠ 0 ∧ c2Req.doctorId ≠ 0 ∧ c2Req.serviceId ≠ 0 ∧
    c2Req.startTime ≠ 0 ∧ c2Req.startTime < c2Req.endTime ∧
    (0 : ℤ) ≤ c2Req.startTime ∧ c2Req.doctorId ∈ c2Store.doctors ∧
    c2Req.serviceId ∈ c2Store.services ∧ c2Req.patientId ∈ c2Store.patients ∧
    (∀ a ∈ c2Store.appointments, a.startTime < a.endTime) ∧
    (createAppointment 0 c2Store c2Req 2 = .error .conflict ↔
      ∃ a ∈ c2Store.appointments, a.doctorId = c2Req.doctorId ∧
        a.status ≠ .CANCELLED ∧ a.startTime < c2Req.endTime ∧
        c2Req.startTime < a.endTime) :=
  ⟨by decide, by decide, by decide, by decide, by decide, by decide, by decide,
    by decide, by decide, by decide,
    C2_createAppointment_conflict_iff_overlap 0 c2Store c2Req 2 (by decide) (by decide)
      (by decide) (by decide) (by decide) (by decide) (by decide) (by decide)
      (by decide) (by decide)⟩

/-- Concrete store for the C1 race: doctor 1 scheduled all of day 0, no
appointments yet. -/
abbrev c1Store : Store :=
  { doctors := [1], services := [1], patients := [1], appointments := [],
    schedules := [{ doctorId := 1, date := 0, startTime := 0, endTime := 86400000 }],
    doctorSchedules := [], exceptions := [] }

/-- Booking request for `[1000, 2000)` of day 0, used twice in the C1
race. -/
abbrev c1Req : BookRequest :=
  { patientId := 1, doctorId := 1, serviceId := 1,
    startTime := 1000, endTime := 2000, status := .PENDING }

/-- C1. The source runs the validation reads and the insert as separate
awaited store operations with no transaction, so two concurrent
`createAppointment` calls can interleave as check-1, check-2, insert-1,
insert-2: both checks read the initial store and pass, both inserts
commit, and the store reaches a state holding two distinct
non-CANCELLED appointments of the same doctor with overlapping
intervals — the state the claim says is unreachable, with both calls
succeeding where the claim says exactly one may. -/
theorem C1_createAppointment_check_then_insert_race :
    bookChecks 0 c1Store c1Req = none ∧
    createAppointment 0 c1Store c1Req 1 = .ok (bookInsert c1Store c1Req 1) ∧
    (∃ a1 ∈ (bookInsert (bookInsert c1Store c1Req 1) c1Req 2).appointments,
     ∃ a2 ∈ (bookInsert (bookInsert c1Store c1Req 1) c1Req 2).appointments,
       a1.id ≠ a2.id ∧ a1.doctorId = a2.doctorId ∧
       a1.status ≠ .CANCELLED ∧ a2.status ≠ .CANCELLED ∧
       a1.startTime < a2.endTime ∧ a2.startTime < a1.endTime) :=
  ⟨by decide, rfl, by decide⟩

/-- Concrete controller store for C10: schedule row 1 of practice 1,
doctor 1 spanning `[32400000, 61200000]`, and a CONFIRMED appointment
of the same doctor and practice lying inside that span. -/
abbrev c10Store : CtrlStore :=
  { schedules := [
      { id := 1, practiceId := 1, doctorId := 1,
        startTime := 32400000, endTime := 61200000 }],
    appointments := [
      { doctorId := 1, practiceId := 1, startTime := 36000000,
        endTime := 37800000, status := .CONFIRMED }] }

/-- C10. `deleteSchedule` filters conflicting appointments with
`status: { in: ["scheduled", "confirmed"] }` (lowercase), but statuses
are stored as the uppercase enum names (`PENDING`, `CONFIRMED`, ...),
so the filter matches nothing: a CONFIRMED appointment lying inside
the schedule row's span does not block deletion, and the row is
deleted — where the claim (and the controller's own error message
"Cannot delete schedule with existing appointments") requires rejection
and retention. -/
theorem C10_deleteSchedule_status_string_bug :
    (∃ a ∈ c10Store.appointments, a.status = .CONFIRMED ∧
      a.doctorId = 1 ∧ a.practiceId = 1 ∧
      (32400000 : ℤ) ≤ a.startTime ∧ a.endTime ≤ 61200000) ∧
    statusString .CONFIRMED = "CONFIRMED" ∧
    deleteSchedule c10Store 1 1 =
      .ok { schedules := [], appointments := c10Store.appointments } :=
  ⟨by decide, rfl, rfl⟩

/-- The single PENDING appointment of the C8 store. -/
abbrev c8App : Appointment :=
  { id := 1, doctorId := 1, patientId := 1, serviceId := 1,
    startTime := 100, endTime := 200, status := .PENDING,
    cancellationReason := "" }

/-- Concrete store for the C8 counterexample: one PENDING appointment
of doctor 1 over `[100, 200)` and no schedule rows of any kind. -/
abbrev c8Store : Store :=
  { doctors := [1], services := [1], patients := [1],
    appointments := [c8App],
    schedules := [], doctorSchedules := [], exceptions := [] }

/-- Reschedule payload moving the appointment to `[300, 400)`. -/
abbrev c8Upd : UpdateData :=
  { patientId := none, doctorId := none, serviceId := none,
    startTime := some 300, endTime := some 400, status := none }

/-- Counterexample to C8: the store has no schedule rows at all (and
`updateAppointment` reads no clock, weekly schedule or exception), yet
rescheduling to `[300, 400)` succeeds — the claim's "full Booking
Transaction precondition set" (schedule coverage, past check, exception
check) is not re-run. -/
theorem C8_reschedule_skips_booking_preconditions_counterexample :
    c8Store.schedules = [] ∧ c8Store.doctorSchedules = [] ∧
    c8Store.exceptions = [] ∧
    updateAppointment c8Store 1 c8Upd =
      .ok { c8Store with appointments := [
        { id := 1, doctorId := 1, patientId := 1, serviceId := 1,
          startTime := 300, endTime := 400, status := .PENDING,
          cancellationReason := "" }] } :=
  ⟨rfl, rfl, rfl, rfl⟩

/-- A first-match query is unchanged by dropping elements that cannot
match. -/
theorem find?_eq_find?_filter {α : Type} (l : List α) (p q : α → Bool)
    (h : ∀ x ∈ l, p x = true → q x = true) : l.find? p = (l.filter q).find? p := by
  induction l with
  | nil => rfl
  | cons a t ih =>
    by_cases hpa : p a = true
    · rw [List.filter_cons_of_pos (h a (by simp) hpa)]
      rw [List.find?_cons_of_pos _ hpa, List.find?_cons_of_pos _ hpa]
    · by_cases hqa : q a = true
      · rw [List.filter_cons_of_pos hqa, List.find?_cons_of_neg _ (by simp [hpa]),
          List.find?_cons_of_neg _ (by simp [hpa])]
        exact ih (fun x hx => h x (by simp [hx]))
      · rw [List.filter_cons_of_neg (by simp [hqa]), List.find?_cons_of_neg _ (by simp [hpa])]
        exact ih (fun x hx => h x (by simp [hx]))

/-- C9. Cancelling an appointment that is already CANCELLED is an
explicit rejection (`cancelAppointment` throws before any write, so the
store is untouched).  After a successful cancellation the appointment's
stored status is CANCELLED, every other appointment is unchanged, and
the cancelled row no longer matters to the booking conflict query: for
any doctor, interval and exclusion, `findConflicting` gives the same
answer whether or not the cancelled row is present. -/
theorem C9_cancelAppointment_idempotent_and_frees (now : ℤ) (st : Store) (id : ℕ)
    (reason : String) :
    ((∃ a, st.appointments.find? (fun x => decide (x.id = id)) = some a ∧
        a.status = .CANCELLED) →
      cancelAppointment now st id reason = .error .alreadyCancelled) ∧
    (∀ st2, cancelAppointment now st id reason = .ok st2 →
      (∃ a2, st2.appointments.find? (fun x => decide (x.id = id)) = some a2 ∧
        a2.status = .CANCELLED) ∧
      (∀ d s e excl, findConflicting st2.appointments d s e excl =
        findConflicting (st2.appointments.filter (fun x => decide (x.id ≠ id))) d s e excl) ∧
      (∀ b ∈ st2.appointments, b.id ≠ id → b ∈ st.appointments)) := by
  constructor
  · rintro ⟨a, hfind, hstat⟩
    unfold cancelAppointment
    rw [hfind]
    dsimp only
    rw [if_pos hstat]
  · intro st2 h
    unfold cancelAppointment at h
    cases hf : st.appointments.find? (fun x => decide (x.id = id)) with
    | none => rw [hf] at h; cases h
    | some a =>
      rw [hf] at h
      dsimp only at h
      by_cases h1 : a.status = .CANCELLED
      · rw [if_pos h1] at h; cases h
      rw [if_neg h1] at h
      by_cases h2 : a.startTime < now
      · rw [if_pos h2] at h; cases h
      rw [if_neg h2] at h
      have hid : a.id = id := by
        have := List.find?_some hf
        simpa using this
      obtain rfl : ({ st with
          appointments := st.appointments.map (cancelRow id reason) } : Store) = st2 :=
        Except.ok.inj h
      refine ⟨?_, ?_, ?_⟩
      · dsimp only
        rw [List.find?_map]
        have hpf : ((fun x => decide (x.id = id)) ∘ cancelRow id reason) =
            (fun x : Appointment => decide (x.id = id)) := by
          funext x
          unfold cancelRow
          by_cases hx : x.id = id <;> simp [hx]
        rw [hpf, hf]
        refine ⟨cancelRow id reason a, rfl, ?_⟩
        unfold cancelRow
        rw [if_pos hid]
      · intro d s e excl
        dsimp only
        unfold findConflicting
        apply find?_eq_find?_filter
        intro x hx hpx
        rw [List.mem_map] at hx
        obtain ⟨y, hy, rfl⟩ := hx
        unfold cancelRow at hpx ⊢
        by_cases hyid : y.id = id
        · rw [if_pos hyid] at hpx
          simp at hpx
        · rw [if_neg hyid] at hpx ⊢
          simp [hyid]
      · intro b hb hbid
        dsimp only at hb
        rw [List.mem_map] at hb
        obtain ⟨y, hy, rfl⟩ := hb
        unfold cancelRow at hbid ⊢
        by_cases hyid : y.id = id
        · rw [if_pos hyid] at hbid
          simp [hyid] at hbid
        · rw [if_neg hyid]
          exact hy

/-- Overlapping NO_SHOW appointment of doctor 1 used by the C4
theorems. -/
abbrev c4App : Appointment :=
  { id := 1, doctorId := 1, patientId := 1, serviceId := 1,
    startTime := 1000, endTime := 2000, status := .NO_SHOW,
    cancellationReason := "" }

/-- Store whose only appointment is the NO_SHOW row. -/
abbrev c4Store : Store :=
  { doctors := [1], services := [1], patients := [1],
    appointments := [c4App],
    schedules := [], doctorSchedules := [], exceptions := [] }

/-- Overlapping request for the C4 counterexample. -/
abbrev c4Req : BookRequest :=
  { patientId := 1, doctorId := 1, serviceId := 1,
    startTime := 1500, endTime := 2500, status := .PENDING }

/-- Counterexample to C4: the only stored appointment has status
NO_SHOW, yet `createAppointment` rejects the overlapping request with
the conflict error — its filter is `status ≠ CANCELLED`, so a NO_SHOW
appointment does block a new booking. -/
theorem C4_noshow_blocks_booking_counterexample :
    (∀ a ∈ c4Store.appointments, a.status = .NO_SHOW) ∧
    createAppointment 0 c4Store c4Req 2 = .error .conflict :=
  ⟨by decide, rfl⟩

/-- C4 as amended: the availability computation
(`isTimeSlotAvailable`, filter `notIn [CANCELLED, NO_SHOW]`) is
insensitive to CANCELLED and NO_SHOW appointments and is blocked by any
overlapping appointment of any other status; the booking conflict check
(`createAppointment`, filter `not CANCELLED`) is insensitive only to
CANCELLED appointments, and any overlapping non-CANCELLED appointment
(NO_SHOW included) forces rejection. -/
theorem C4_amended_status_filters (st : Store) (now : ℤ) (req : BookRequest)
    (d : ℕ) (s e : ℤ) (a : Appointment) :
    ((a.status = .CANCELLED ∨ a.status = .NO_SHOW) →
      isTimeSlotAvailable { st with appointments := a :: st.appointments } d s e =
        isTimeSlotAvailable st d s e) ∧
    (a ∈ st.appointments → a.doctorId = d → a.status ≠ .CANCELLED →
      a.status ≠ .NO_SHOW → a.startTime < e → a.endTime > s →
      isTimeSlotAvailable st d s e = false) ∧
    (a.status = .CANCELLED →
      bookChecks now { st with appointments := a :: st.appointments } req =
        bookChecks now st req) ∧
    (a ∈ st.appointments → a.doctorId = req.doctorId → a.status ≠ .CANCELLED →
      a.startTime < req.endTime → req.startTime < a.endTime →
      bookChecks now st req ≠ none) := by
  refine ⟨?_, ?_, ?_, ?_⟩
  · intro hcn
    unfold isTimeSlotAvailable
    dsimp only
    cases hfind : st.doctorSchedules.find? (fun r =>
        decide (r.doctorId = d) &&
        decide (r.dayOfWeek = jsDayOfWeek s) &&
        decide (r.startMin ≤ minuteOfDay s) &&
        decide (r.endMin ≥ minuteOfDay e) &&
        effectiveOk r s e && r.isAvailable) with
    | none => rfl
    | some row =>
      dsimp only
      rcases hcn with h | h <;> simp [h]
  · intro ha hd h1 h2 h3 h4
    unfold isTimeSlotAvailable
    cases hfind : st.doctorSchedules.find? (fun r =>
        decide (r.doctorId = d) &&
        decide (r.dayOfWeek = jsDayOfWeek s) &&
        decide (r.startMin ≤ minuteOfDay s) &&
        decide (r.endMin ≥ minuteOfDay e) &&
        effectiveOk r s e && r.isAvailable) with
    | none => rfl
    | some row =>
      dsimp only
      split_ifs with hx1 hx2 hx3 <;> try rfl
      exfalso
      apply hx3
      rw [List.any_eq_true]
      exact ⟨a, ha, by simp [hd, h1, h2, h3, h4]⟩
  · intro hC
    unfold bookChecks findConflicting
    dsimp only
    rw [List.find?_cons_of_neg _ (by simp [hC])]
  · intro ha hd h1 h3 h4 hnone
    have hsome : (findConflicting st.appointments req.doctorId req.startTime
        req.endTime none).isSome = true := by
      unfold findConflicting
      rw [List.find?_isSome]
      refine ⟨a, ha, ?_⟩
      simp only [Bool.and_eq_true, Bool.and_true, Bool.true_and, decide_eq_true_eq,
        overlapsExisting]
      exact ⟨⟨hd, h1⟩, by omega⟩
    unfold bookChecks at hnone
    by_cases c1 : (req.patientId = 0 ∨ req.doctorId = 0 ∨ req.serviceId = 0 ∨
        req.startTime = 0)
    · rw [if_pos c1] at hnone; exact Option.noConfusion hnone
    rw [if_neg c1] at hnone
    by_cases c2 : req.startTime ≥ req.endTime
    · rw [if_pos c2] at hnone; exact Option.noConfusion hnone
    rw [if_neg c2] at hnone
    by_cases c3 : req.startTime < now
    · rw [if_pos c3] at hnone; exact Option.noConfusion hnone
    rw [if_neg c3] at hnone
    by_cases c4 : req.doctorId ∉ st.doctors
    · rw [if_pos c4] at hnone; exact Option.noConfusion hnone
    rw [if_neg c4] at hnone
    by_cases c5 : req.serviceId ∉ st.services
    · rw [if_pos c5] at hnone; exact Option.noConfusion hnone
    rw [if_neg c5] at hnone
    by_cases c6 : req.patientId ∉ st.patients
    · rw [if_pos c6] at hnone; exact Option.noConfusion hnone
    rw [if_neg c6] at hnone
    rw [if_pos hsome] at hnone
    exact Option.noConfusion hnone

/-- Witness for C4's amended statement at the concrete NO_SHOW store. -/
theorem C4_amended_status_filters_witness :
    ((c4App.status = .CANCELLED ∨ c4App.status = .NO_SHOW) →
      isTimeSlotAvailable { c4Store with appointments := c4App :: c4Store.appointments }
          1 1500 2500 =
        isTimeSlotAvailable c4Store 1 1500 2500) ∧
    (c4App ∈ c4Store.appointments → c4App.doctorId = 1 → c4App.status ≠ .CANCELLED →
      c4App.status ≠ .NO_SHOW → c4App.startTime < 2500 → c4App.endTime > 1500 →
      isTimeSlotAvailable c4Store 1 1500 2500 = false) ∧
    (c4App.status = .CANCELLED →
      bookChecks 0 { c4Store with appointments := c4App :: c4Store.appointments } c4Req =
        bookChecks 0 c4Store c4Req) ∧
    (c4App ∈ c4Store.appointments → c4App.doctorId = c4Req.doctorId →
      c4App.status ≠ .CANCELLED → c4App.startTime < c4Req.endTime →
      c4Req.startTime < c4App.endTime → bookChecks 0 c4Store c4Req ≠ none) :=
  C4_amended_status_filters c4Store 0 c4Req 1 1500 2500 c4App

/-- Full-day exception of doctor 1 on day 1 used by the C5 theorems. -/
abbrev c5Exc : ScheduleExceptionRow :=
  { doctorId := 1, date := 1, isFullDay := true, startMin := 0, endMin := 0 }

/-- Store with the full-day exception and a per-date schedule row
covering 09:00-17:00 of day 1. -/
abbrev c5Store : Store :=
  { doctors := [1], services := [1], patients := [1], appointments := [],
    schedules := [{ doctorId := 1, date := 1, startTime := 32400000, endTime := 61200000 }],
    doctorSchedules := [], exceptions := [c5Exc] }

/-- Request for 09:00-09:30 of day 1, the fully excepted day. -/
abbrev c5Req : BookRequest :=
  { patientId := 1, doctorId := 1, serviceId := 1,
    startTime := 118800000, endTime := 120600000, status := .PENDING }

/-- Counterexample to C5: a full-day ScheduleException exists for the
doctor on the request's calendar date, yet `createAppointment` creates
the appointment — the booking path never consults exceptions. -/
theorem C5_fullday_exception_ignored_counterexample :
    (∃ x ∈ c5Store.exceptions, x.doctorId = c5Req.doctorId ∧
      x.date = dayOf c5Req.startTime ∧ x.isFullDay = true) ∧
    createAppointment 0 c5Store c5Req 1 = .ok (bookInsert c5Store c5Req 1) :=
  ⟨by decide, rfl⟩

/-- C5 as amended: `createAppointment` performs no ScheduleException
check at all — its outcome is independent of the exceptions in the
store — while `isTimeSlotAvailable` (which the booking path does not
invoke) does return false whenever a full-day exception exists for the
doctor on the start date or a partial exception on that date overlaps
the requested interval. -/
theorem C5_amended_exception_checks (st : Store) (now : ℤ) (req : BookRequest)
    (d : ℕ) (s e : ℤ) :
    (∀ E : List ScheduleExceptionRow,
      bookChecks now { st with exceptions := E } req = bookChecks now st req) ∧
    ((∃ x ∈ st.exceptions, x.doctorId = d ∧ x.date = dayOf s ∧ x.isFullDay = true) →
      isTimeSlotAvailable st d s e = false) ∧
    ((∃ x ∈ st.exceptions, x.doctorId = d ∧ x.date = dayOf s ∧ x.isFullDay = false ∧
        ¬(e ≤ dayOf s * dayMs + x.startMin * 60000 ∨
          s ≥ dayOf s * dayMs + x.endMin * 60000)) →
      isTimeSlotAvailable st d s e = false) := by
  refine ⟨fun E => rfl, ?_, ?_⟩
  · rintro ⟨x, hx, hxd, hxdate, hxf⟩
    unfold isTimeSlotAvailable
    cases hfind : st.doctorSchedules.find? (fun r =>
        decide (r.doctorId = d) &&
        decide (r.dayOfWeek = jsDayOfWeek s) &&
        decide (r.startMin ≤ minuteOfDay s) &&
        decide (r.endMin ≥ minuteOfDay e) &&
        effectiveOk r s e && r.isAvailable) with
    | none => rfl
    | some row =>
      dsimp only
      split_ifs with hx1 hx2 hx3 <;> try rfl
      exfalso
      apply hx1
      rw [List.any_eq_true]
      exact ⟨x, List.mem_filter.mpr ⟨hx, by simp [hxd, hxdate]⟩, hxf⟩
  · rintro ⟨x, hx, hxd, hxdate, hxf, hxov⟩
    unfold isTimeSlotAvailable
    cases hfind : st.doctorSchedules.find? (fun r =>
        decide (r.doctorId = d) &&
        decide (r.dayOfWeek = jsDayOfWeek s) &&
        decide (r.startMin ≤ minuteOfDay s) &&
        decide (r.endMin ≥ minuteOfDay e) &&
        effectiveOk r s e && r.isAvailable) with
    | none => rfl
    | some row =>
      dsimp only
      split_ifs with hx1 hx2 hx3 <;> try rfl
      exfalso
      apply hx2
      rw [List.any_eq_true]
      refine ⟨x, List.mem_filter.mpr ⟨hx, by simp [hxd, hxdate]⟩, ?_⟩
      simp only [hxf, Bool.not_false, Bool.true_and, Bool.or_eq_true, decide_eq_true_eq,
        Bool.not_eq_true]
      push_neg at hxov
      simp [hxov.1, hxov.2]

/-- Witness for C5's amended statement at the concrete full-day
exception store. -/
theorem C5_amended_exception_checks_witness :
    (∀ E : List ScheduleExceptionRow,
      bookChecks 0 { c5Store with exceptions := E } c5Req = bookChecks 0 c5Store c5Req) ∧
    ((∃ x ∈ c5Store.exceptions, x.doctorId = 1 ∧ x.date = dayOf 118800000 ∧
        x.isFullDay = true) →
      isTimeSlotAvailable c5Store 1 118800000 120600000 = false) ∧
    ((∃ x ∈ c5Store.exceptions, x.doctorId = 1 ∧ x.date = dayOf 118800000 ∧
        x.isFullDay = false ∧
        ¬((120600000 : ℤ) ≤ dayOf 118800000 * dayMs + x.startMin * 60000 ∨
          (118800000 : ℤ) ≥ dayOf 118800000 * dayMs + x.endMin * 60000)) →
      isTimeSlotAvailable c5Store 1 118800000 120600000 = false) :=
  C5_amended_exception_checks c5Store 0 c5Req 1 118800000 120600000

/-- Witness for C9 at a concrete store whose appointment 1 is already
CANCELLED. -/
abbrev c9Store : Store :=
  { doctors := [1], services := [1], patients := [1],
    appointments := [
      { id := 1, doctorId := 1, patientId := 1, serviceId := 1,
        startTime := 1000, endTime := 2000, status := .CANCELLED,
        cancellationReason := "x" }],
    schedules := [], doctorSchedules := [], exceptions := [] }

/-- Witness for C9: instantiation at the concrete store. -/
theorem C9_cancelAppointment_idempotent_and_frees_witness :
    ((∃ a, c9Store.appointments.find? (fun x => decide (x.id = 1)) = some a ∧
        a.status = .CANCELLED) →
      cancelAppointment 0 c9Store 1 "y" = .error .alreadyCancelled) ∧
    (∀ st2, cancelAppointment 0 c9Store 1 "y" = .ok st2 →
      (∃ a2, st2.appointments.find? (fun x => decide (x.id = 1)) = some a2 ∧
        a2.status = .CANCELLED) ∧
      (∀ d s e excl, findConflicting st2.appointments d s e excl =
        findConflicting (st2.appointments.filter (fun x => decide (x.id ≠ 1))) d s e excl) ∧
      (∀ b ∈ st2.appointments, b.id ≠ 1 → b ∈ c9Store.appointments)) :=
  C9_cancelAppointment_idempotent_and_frees 0 c9Store 1 "y"

/-- The conflict query succeeds exactly on a non-CANCELLED,
non-excluded appointment of the doctor matching the three-clause
overlap `OR`, stated verbatim (no interval-validity hypotheses). -/
theorem findConflicting_isSome_or3 (appts : List Appointment) (d : ℕ) (s e : ℤ)
    (excl : Option ℕ) :
    (findConflicting appts d s e excl).isSome = true ↔
      ∃ a ∈ appts, a.doctorId = d ∧ (∀ i, excl = some i → a.id ≠ i) ∧
        a.status ≠ .CANCELLED ∧
        ((a.startTime ≤ s ∧ a.endTime > s) ∨ (a.startTime < e ∧ a.endTime ≥ e) ∨
         (a.startTime ≥ s ∧ a.endTime ≤ e)) := by
  rw [findConflicting, List.find?_isSome]
  cases excl with
  | none =>
    constructor
    · rintro ⟨a, ha, hpred⟩
      simp only [Bool.and_eq_true, Bool.and_true, Bool.true_and, decide_eq_true_eq,
        overlapsExisting] at hpred
      exact ⟨a, ha, hpred.1.1, by simp, hpred.1.2, hpred.2⟩
    · rintro ⟨a, ha, h1, h2, h3, h4⟩
      refine ⟨a, ha, ?_⟩
      simp only [Bool.and_eq_true, Bool.and_true, Bool.true_and, decide_eq_true_eq,
        overlapsExisting]
      exact ⟨⟨h1, h3⟩, h4⟩
  | some i =>
    constructor
    · rintro ⟨a, ha, hpred⟩
      simp only [Bool.and_eq_true, Bool.and_true, Bool.true_and, decide_eq_true_eq,
        overlapsExisting] at hpred
      refine ⟨a, ha, hpred.1.1.1, ?_, hpred.1.2, hpred.2⟩
      rintro j hj
      cases hj
      exact hpred.1.1.2
    · rintro ⟨a, ha, h1, h2, h3, h4⟩
      refine ⟨a, ha, ?_⟩
      simp only [Bool.and_eq_true, Bool.and_true, Bool.true_and, decide_eq_true_eq,
        overlapsExisting]
      exact ⟨⟨⟨h1, h2 i rfl⟩, h3⟩, h4⟩

/-- C8 as amended: rescheduling through `updateAppointment` re-checks
only (i) interval order, and only when both new times are provided, and
(ii) the conflicting-appointment query for the merged target doctor and
times, excluding the appointment itself — never the clock, the weekly
or per-date schedules, or the exceptions, whose contents do not
influence the outcome at all.  When the two checks pass the update is
applied to exactly the addressed row; each error implies its
corresponding check really failed; a failed reschedule performs no
write. -/
theorem C8_amended_update_checks (st : Store) (id : ℕ) (d : UpdateData) (a : Appointment)
    (hfind : st.appointments.find? (fun x => decide (x.id = id)) = some a)
    (S : List ScheduleRow) (D : List DoctorSchedule) (E : List ScheduleExceptionRow) :
    (updateAppointment { st with schedules := S, doctorSchedules := D, exceptions := E }
        id d =
      (updateAppointment st id d).map (fun st2 =>
        { st2 with schedules := S, doctorSchedules := D, exceptions := E })) ∧
    ((∀ s2 e2, d.startTime = some s2 → d.endTime = some e2 → s2 < e2) →
      (∀ b ∈ st.appointments, b.id ≠ id →
        b.doctorId = d.doctorId.getD a.doctorId → b.status ≠ .CANCELLED →
        ¬((b.startTime ≤ d.startTime.getD a.startTime ∧
           b.endTime > d.startTime.getD a.startTime) ∨
          (b.startTime < d.endTime.getD a.endTime ∧
           b.endTime ≥ d.endTime.getD a.endTime) ∨
          (b.startTime ≥ d.startTime.getD a.startTime ∧
           b.endTime ≤ d.endTime.getD a.endTime))) →
      updateAppointment st id d =
        .ok { st with appointments := st.appointments.map (updateRow id d) }) ∧
    (updateAppointment st id d = .error .invalidInterval →
      ∃ s2 e2, d.startTime = some s2 ∧ d.endTime = some e2 ∧ e2 ≤ s2) ∧
    (updateAppointment st id d = .error .conflict →
      ∃ b ∈ st.appointments, b.id ≠ id ∧ b.doctorId = d.doctorId.getD a.doctorId ∧
        b.status ≠ .CANCELLED ∧
        ((b.startTime ≤ d.startTime.getD a.startTime ∧
          b.endTime > d.startTime.getD a.startTime) ∨
         (b.startTime < d.endTime.getD a.endTime ∧
          b.endTime ≥ d.endTime.getD a.endTime) ∨
         (b.startTime ≥ d.startTime.getD a.startTime ∧
          b.endTime ≤ d.endTime.getD a.endTime))) := by
  refine ⟨?_, ?_, ?_, ?_⟩
  · unfold updateAppointment
    dsimp only
    rw [hfind]
    dsimp only
    split_ifs <;> rfl
  · intro hint hnc
    unfold updateAppointment
    rw [hfind]
    dsimp only
    have hc1 : ¬((match d.startTime, d.endTime with
        | some s2, some e2 => decide (s2 ≥ e2)
        | _, _ => false) = true) := by
      cases hds : d.startTime with
      | none => simp
      | some s2 =>
        cases hde : d.endTime with
        | none => simp
        | some e2 =>
          simp only [decide_eq_true_eq]
          have := hint s2 e2 hds hde
          omega
    rw [if_neg hc1]
    split_ifs with h2
    · rw [Bool.and_eq_true] at h2
      obtain ⟨hch, hsome⟩ := h2
      obtain ⟨b, hb, hbd, hbi, hbs, hbov⟩ :=
        (findConflicting_isSome_or3 _ _ _ _ _).mp hsome
      exact absurd hbov (hnc b hb (hbi id rfl) hbd hbs)
    · rfl
  · intro h
    unfold updateAppointment at h
    rw [hfind] at h
    dsimp only at h
    by_cases hc1 : (match d.startTime, d.endTime with
        | some s2, some e2 => decide (s2 ≥ e2)
        | _, _ => false) = true
    · cases hds : d.startTime with
      | none => rw [hds] at hc1; simp at hc1
      | some s2 =>
        cases hde : d.endTime with
        | none => rw [hds, hde] at hc1; simp at hc1
        | some e2 =>
          rw [hds, hde] at hc1
          simp only [decide_eq_true_eq] at hc1
          exact ⟨s2, e2, rfl, rfl, by omega⟩
    · rw [if_neg hc1] at h
      split_ifs at h <;> simp at h
  · intro h
    unfold updateAppointment at h
    rw [hfind] at h
    dsimp only at h
    split_ifs at h with h1 h2
    all_goals first
      | (rw [Bool.and_eq_true] at h2
         obtain ⟨hch, hsome⟩ := h2
         obtain ⟨b, hb, hbd, hbi, hbs, hbov⟩ :=
           (findConflicting_isSome_or3 _ _ _ _ _).mp hsome
         exact ⟨b, hb, hbi id rfl, hbd, hbs, hbov⟩)
      | simp at h

/-- Witness for C8's amended statement at the concrete store of the
counterexample. -/
theorem C8_amended_update_checks_witness :
    c8Store.appointments.find? (fun x => decide (x.id = 1)) = some c8App ∧
    ((updateAppointment
        { c8Store with schedules := [], doctorSchedules := [], exceptions := [] } 1 c8Upd =
      (updateAppointment c8Store 1 c8Upd).map (fun st2 =>
        { st2 with schedules := [], doctorSchedules := [], exceptions := [] })) ∧
    ((∀ s2 e2, c8Upd.startTime = some s2 → c8Upd.endTime = some e2 → s2 < e2) →
      (∀ b ∈ c8Store.appointments, b.id ≠ 1 →
        b.doctorId = c8Upd.doctorId.getD c8App.doctorId → b.status ≠ .CANCELLED →
        ¬((b.startTime ≤ c8Upd.startTime.getD c8App.startTime ∧
           b.endTime > c8Upd.startTime.getD c8App.startTime) ∨
          (b.startTime < c8Upd.endTime.getD c8App.endTime ∧
           b.endTime ≥ c8Upd.endTime.getD c8App.endTime) ∨
          (b.startTime ≥ c8Upd.startTime.getD c8App.startTime ∧
           b.endTime ≤ c8Upd.endTime.getD c8App.endTime))) →
      updateAppointment c8Store 1 c8Upd =
        .ok { c8Store with appointments := c8Store.appointments.map (updateRow 1 c8Upd) }) ∧
    (updateAppointment c8Store 1 c8Upd = .error .invalidInterval →
      ∃ s2 e2, c8Upd.startTime = some s2 ∧ c8Upd.endTime = some e2 ∧ e2 ≤ s2) ∧
    (updateAppointment c8Store 1 c8Upd = .error .conflict →
      ∃ b ∈ c8Store.appointments, b.id ≠ 1 ∧
        b.doctorId = c8Upd.doctorId.getD c8App.doctorId ∧ b.status ≠ .CANCELLED ∧
        ((b.startTime ≤ c8Upd.startTime.getD c8App.startTime ∧
          b.endTime > c8Upd.startTime.getD c8App.startTime) ∨
         (b.startTime < c8Upd.endTime.getD c8App.endTime ∧
          b.endTime ≥ c8Upd.endTime.getD c8App.endTime) ∨
         (b.startTime ≥ c8Upd.startTime.getD c8App.startTime ∧
          b.endTime ≤ c8Upd.endTime.getD c8App.endTime)))) :=
  ⟨rfl, C8_amended_update_checks c8Store 1 c8Upd c8App rfl [] [] []⟩

end MediBook
